import Mathlib

/-!
Verification of the BIS fetcher's two extraction algorithms
(`BisFetcher._parse_page_links` and `BisFetcher._parse_article_text` /
`BisFetcher._extract_text` in `src/bis_fetcher/fetcher/bis.py`) against
their natural-language specification.

The DOM returned by BeautifulSoup is embedded as a tree of element and
text nodes.  `find` / `find_all` search the strict descendants of a node
in document (pre-order) order, matching on tag name and on an attribute
filter; the multi-valued HTML attributes `class` and `rel` match when the
wanted value is one of the whitespace-separated items of the actual
attribute value, as BeautifulSoup does.  `Tag.text` is the concatenation
of all descendant text nodes in document order.

The HTTP transport is external: a response is either a raised exception
(`failure`) or a status code together with the parsed document.  Python
exceptions inside the extraction code (subscripting `None`, a missing
dictionary key, an unparsable timestamp) are modelled by explicit
control flow: the page-link loop returns the records accumulated before
the first raising item together with an abort flag, and the
document-extraction path collapses every raising branch to `none`,
mirroring the `try`/`except` blocks that catch them.

`datetime.fromisoformat` followed by `.isoformat()` is an external
standard-library collaborator; it is passed in as a parameter
`fromiso : String → Option String`, `none` meaning the parse raises
`ValueError` and `some s` meaning it succeeds with canonical form `s`.
-/

/-- A DOM node: an element with a tag name, an attribute list and
children, or a text node. -/
inductive Node : Type where
  | elem (tag : String) (attrs : List (String × String)) (children : List Node) : Node
  | text (s : String) : Node
deriving Repr

/-- Attribute list of a node (text nodes have none). -/
def Node.attrsOf : Node → List (String × String)
  | .elem _ a _ => a
  | .text _ => []

mutual

/-- BeautifulSoup's `Tag.text`: concatenation of all descendant text
nodes, in document order. -/
def Node.allText : Node → String
  | .text s => s
  | .elem _ _ cs => nodesText cs
termination_by structural n => n

/-- Concatenated text of a list of sibling nodes. -/
def nodesText : List Node → String
  | [] => ""
  | c :: cs => Node.allText c ++ nodesText cs
termination_by structural l => l

end

/-- Splitting a character list at every space, keeping empty pieces
(the behaviour of splitting a string on the single-space separator). -/
def splitChars : List Char → List (List Char)
  | [] => [[]]
  | c :: cs =>
    let r := splitChars cs
    if c = ' ' then [] :: r
    else
      match r with
      | [] => [[c]]
      | w :: ws => (c :: w) :: ws

/-- The space-separated pieces of a string. -/
def splitSpaces (s : String) : List String :=
  (splitChars s.toList).map List.asString

/-- BeautifulSoup attribute-value matching: `class` and `rel` are
multi-valued, so the wanted value must be one of the space-separated
items; any other attribute must be equal to the wanted value. -/
def matchAttrVal (key wanted actual : String) : Bool :=
  if key = "class" ∨ key = "rel" then (splitSpaces actual).contains wanted
  else wanted = actual

/-- Whether an element with tag `t` and attributes `a` satisfies a
`find` / `find_all` query for tag `name` with attribute filter `attrs`. -/
def matchesQuery (name : String) (attrs : List (String × String))
    (t : String) (a : List (String × String)) : Bool :=
  t = name && attrs.all fun (k, v) =>
    match a.lookup k with
    | some actual => matchAttrVal k v actual
    | none => false

mutual

/-- BeautifulSoup's `find_all(name, attrs)` on a node: all matching
elements among its strict descendants, in document (pre-order) order. -/
def Node.findAllFrom (name : String) (attrs : List (String × String)) : Node → List Node
  | .text _ => []
  | .elem _ _ cs => findAllList name attrs cs
termination_by structural n => n

/-- All matching elements in a forest of sibling subtrees, in document
order: each root that matches, then its descendants, then the rest. -/
def findAllList (name : String) (attrs : List (String × String)) : List Node → List Node
  | [] => []
  | c :: cs =>
      (match c with
       | .elem t a _ => if matchesQuery name attrs t a then [c] else []
       | .text _ => [])
      ++ Node.findAllFrom name attrs c ++ findAllList name attrs cs
termination_by structural l => l

end

/-- BeautifulSoup's `find(name, attrs)`: the first match of `find_all`,
or `None`. -/
def Node.findFirst (name : String) (attrs : List (String × String)) (n : Node) :
    Option Node :=
  (Node.findAllFrom name attrs n).head?

/-- A link record emitted by `_parse_page_links`:
`{"title": ..., "url": ...}`. -/
structure LinkRecord where
  title : String
  url : String
deriving Repr, DecidableEq

/-- A document record emitted by `_extract_text`:
`{"categories": ..., "time": ..., "text": ...}`. -/
structure DocumentRecord where
  categories : List String
  time : String
  text : String
deriving Repr, DecidableEq

/-- The configuration fields of the `BisFetcher` class that the two
extraction methods read. -/
structure BisFetcher where
  base_url : String
  link_container_name : String
  link_container_attrs : List (String × String)
  link_find_all_name : String
  link_find_all_attrs : List (String × String)
  lint_article_name : String
  lint_article_attrs : List (String × String)
deriving Repr, DecidableEq

/-- The class-level default configuration of `BisFetcher`. -/
def bis : BisFetcher :=
  ⟨"https://www.bis.org", "table", [("class", "documentList")], "tr", [],
    "div", [("class", "title")]⟩

/-- The `title_div` lookup for one listing item:
`article.find(self.lint_article_name, attrs=self.lint_article_attrs)`. -/
def titleDiv (f : BisFetcher) (article : Node) : Option Node :=
  Node.findFirst f.lint_article_name f.lint_article_attrs article

/-- The anchor lookup for one listing item: `article.find("a")`. -/
def firstAnchor (article : Node) : Option Node :=
  Node.findFirst "a" [] article

/-- The `for article in articles` loop of `_parse_page_links`.  Returns
the accumulated records together with an abort flag: an item without a
title div is skipped (`continue`), while an item whose anchor is missing
(`None["href"]` raises `TypeError`) or whose anchor lacks an `href`
attribute (`KeyError`) raises, ending the loop with the records
accumulated so far. -/
def processArticles (f : BisFetcher) : List Node → List LinkRecord × Bool
  | [] => ([], false)
  | a :: rest =>
    match titleDiv f a with
    | none => processArticles f rest
    | some td =>
      match firstAnchor a with
      | none => ([], true)
      | some anchor =>
        match (Node.attrsOf anchor).lookup "href" with
        | none => ([], true)
        | some href =>
          ((⟨Node.allText td, f.base_url ++ href⟩ : LinkRecord)
              :: (processArticles f rest).1,
            (processArticles f rest).2)

/-- Outcome of the external `self.request` transport for a listing page:
either the request raised, or it returned a status code and a document
that BeautifulSoup parses into a DOM tree. -/
inductive PageResponse : Type where
  | failure : PageResponse
  | success (status : Nat) (soup : Node) : PageResponse
deriving Repr

/-- Result of `_parse_page_links`: Python's `None`
(the end-of-pagination sentinel) or a list of link records. -/
inductive PageResult : Type where
  | endOfPagination : PageResult
  | records (links : List LinkRecord) : PageResult
deriving Repr, DecidableEq

/-- The listing-page articles: `section.find_all(self.link_find_all_name,
attrs=self.link_find_all_attrs)` on the container found by
`soup.find(self.link_container_name, attrs=self.link_container_attrs)`. -/
def pageArticles (f : BisFetcher) (soup : Node) : List Node :=
  match Node.findFirst f.link_container_name f.link_container_attrs soup with
  | none => []
  | some sec => Node.findAllFrom f.link_find_all_name f.link_find_all_attrs sec

/-- `BisFetcher._parse_page_links`.  A raised request is caught by the
surrounding `except`, returning the empty accumulator; a 404 status
returns `None`; a missing container makes `section.find_all` raise
`AttributeError`, caught with the empty accumulator; otherwise the item
loop runs and its accumulated records are returned whether or not it
aborted. -/
def parse_page_links (f : BisFetcher) (resp : PageResponse) : PageResult :=
  match resp with
  | .failure => .records []
  | .success status soup =>
    if status = 404 then .endOfPagination
    else
      match Node.findFirst f.link_container_name f.link_container_attrs soup with
      | none => .records []
      | some sec =>
        .records (processArticles f
          (Node.findAllFrom f.link_find_all_name f.link_find_all_attrs sec)).1

/-- Outcome of the external `self.request` transport for a document
page: either the request raised, or BeautifulSoup parsed its body. -/
inductive DocResponse : Type where
  | failure : DocResponse
  | success (soup : Node) : DocResponse
deriving Repr

/-- The `<time class="entry-time">` lookup inside the metadata
container. -/
def entryTime (meta : Node) : Option Node :=
  Node.findFirst "time" [("class", "entry-time")] meta

/-- The `entry-content` container lookup:
`soup.find("div", class_="entry-content")`. -/
def findContentDiv (soup : Node) : Option Node :=
  Node.findFirst "div" [("class", "entry-content")] soup

/-- The `entry-meta` container lookup:
`soup.find("div", class_="entry-meta")`. -/
def findMetaDiv (soup : Node) : Option Node :=
  Node.findFirst "div" [("class", "entry-meta")] soup

/-- `BisFetcher._extract_text`, with the raising branches (`None`
subscripted → `TypeError`, missing `datetime` key → `KeyError`,
`datetime.fromisoformat` → `ValueError`) collapsed to `none`; the caller
catches them all. -/
def extract_text (fromiso : String → Option String)
    (entry_content_div entry_meta_div : Node) : Option DocumentRecord :=
  let p_tags := Node.findAllFrom "p" [] entry_content_div
  let article_text := String.intercalate "\n" (p_tags.map Node.allText)
  let entry_categories :=
    (Node.findAllFrom "a" [("rel", "tag")] entry_meta_div).map Node.allText
  match entryTime entry_meta_div with
  | none => none
  | some t =>
    match (Node.attrsOf t).lookup "datetime" with
    | none => none
    | some s =>
      match fromiso s with
      | none => none
      | some iso => some ⟨entry_categories, iso, article_text⟩

/-- `BisFetcher._parse_article_text`: a raised request or any raising
extraction step yields `None`; a record is produced only when both the
`entry-content` and `entry-meta` containers are found and extraction
succeeds. -/
def parse_article_text (fromiso : String → Option String)
    (resp : DocResponse) : Option DocumentRecord :=
  match resp with
  | .failure => none
  | .success soup =>
    match findContentDiv soup, findMetaDiv soup with
    | some entry_content_div, some entry_meta_div =>
        extract_text fromiso entry_content_div entry_meta_div
    | _, _ => none

/-- The href of the first anchor of a listing item, when both the anchor
and its `href` attribute exist. -/
def anchorHref (a : Node) : Option String :=
  (firstAnchor a).bind fun anc => (Node.attrsOf anc).lookup "href"

/-- The record one listing item contributes when it has a title sub-node
and an anchor carrying an `href`. -/
def itemRecord (f : BisFetcher) (a : Node) : Option LinkRecord :=
  match titleDiv f a, anchorHref a with
  | some td, some h => some ⟨Node.allText td, f.base_url ++ h⟩
  | _, _ => none

/-- A well-formed listing row: a title div and an anchor. -/
def sampleRow (t href : String) : Node :=
  Node.elem "tr" [] [
    Node.elem "td" [] [
      Node.elem "div" [("class", "title")] [Node.text t],
      Node.elem "a" [("href", href)] [Node.text t]]]

/-- A listing row lacking the title sub-node. -/
def rowNoTitle : Node :=
  Node.elem "tr" [] [Node.elem "a" [("href", "/x")] [Node.text "x"]]

/-- A listing row with a title sub-node but no anchor. -/
def rowNoAnchor (t : String) : Node :=
  Node.elem "tr" [] [Node.elem "div" [("class", "title")] [Node.text t]]

/-- A listing row whose title div has empty text. -/
def rowEmptyTitle : Node :=
  Node.elem "tr" [] [
    Node.elem "div" [("class", "title")] [],
    Node.elem "a" [("href", "/e")] [Node.text "x"]]

/-- A listing page wrapping the given rows in the configured
`table.documentList` container. -/
def listingPage (rows : List Node) : Node :=
  Node.elem "[document]" [] [
    Node.elem "html" [] [
      Node.elem "body" [] [
        Node.elem "table" [("class", "documentList")] [
          Node.elem "tbody" [] rows]]]]

/-- A paragraph element with the given text. -/
def pElem (s : String) : Node :=
  Node.elem "p" [] [Node.text s]

/-- An anchor with `rel="tag"` holding the given category text. -/
def tagAnchor (s : String) : Node :=
  Node.elem "a" [("rel", "tag")] [Node.text s]

/-- A `<time class="entry-time">` element with the given `datetime`
attribute value. -/
def timeElem (s : String) : Node :=
  Node.elem "time" [("class", "entry-time"), ("datetime", s)] []

/-- A metadata container with the given tag-anchor texts and `datetime`
attribute value. -/
def sampleMeta (tags : List String) (dt : String) : Node :=
  Node.elem "div" [("class", "entry-meta")] (tags.map tagAnchor ++ [timeElem dt])

/-- A content container with the given paragraph texts. -/
def sampleContent (ps : List String) : Node :=
  Node.elem "div" [("class", "entry-content")] (ps.map pElem)

/-- A document page holding the given content and metadata containers. -/
def articlePage (c m : Node) : Node :=
  Node.elem "[document]" [] [Node.elem "body" [] [c, m]]

/-- A model timestamp parser accepting exactly one canonical string. -/
def sampleIso : String → Option String := fun s =>
  if s = "2023-01-02T03:04:05" then some "2023-01-02T03:04:05" else none

theorem parse_page_links_success_eq (f : BisFetcher) (status : Nat) (soup : Node)
    (h : status ≠ 404) :
    parse_page_links f (PageResponse.success status soup) =
      PageResult.records (processArticles f (pageArticles f soup)).1 := by
  unfold parse_page_links pageArticles
  simp only [if_neg h]
  cases Node.findFirst f.link_container_name f.link_container_attrs soup with
  | none => rfl
  | some sec => rfl

theorem processArticles_abort (f : BisFetcher) (pre : List Node) (a : Node)
    (post : List Node) (hpre : (processArticles f pre).2 = false)
    (ht : (titleDiv f a).isSome = true) (ha : anchorHref a = none) :
    processArticles f (pre ++ a :: post) = ((processArticles f pre).1, true) := by
  induction pre with
  | nil =>
    obtain ⟨td, htd⟩ := Option.isSome_iff_exists.mp ht
    cases hfa : firstAnchor a with
    | none => simp [processArticles, htd, hfa]
    | some anc =>
      simp only [anchorHref, hfa, Option.some_bind] at ha
      simp [processArticles, htd, hfa, ha]
  | cons b pre ih =>
    cases htb : titleDiv f b with
    | none =>
      simp only [List.cons_append, processArticles, htb] at hpre ⊢
      exact ih hpre
    | some td =>
      cases hfb : firstAnchor b with
      | none => simp [processArticles, htb, hfb] at hpre
      | some anc =>
        cases hlb : (Node.attrsOf anc).lookup "href" with
        | none => simp [processArticles, htb, hfb, hlb] at hpre
        | some href =>
          simp only [List.cons_append, processArticles, htb, hfb, hlb,
            List.append_eq] at hpre ⊢
          rw [ih hpre]

theorem mem_processArticles (f : BisFetcher) (arts : List Node) (r : LinkRecord)
    (h : r ∈ (processArticles f arts).1) :
    ∃ a ∈ arts, itemRecord f a = some r := by
  induction arts with
  | nil => simp [processArticles] at h
  | cons b rest ih =>
    cases htb : titleDiv f b with
    | none =>
      simp only [processArticles, htb] at h
      obtain ⟨a, hmem, hrec⟩ := ih h
      exact ⟨a, List.mem_cons_of_mem b hmem, hrec⟩
    | some td =>
      cases hfb : firstAnchor b with
      | none => simp [processArticles, htb, hfb] at h
      | some anc =>
        cases hlb : (Node.attrsOf anc).lookup "href" with
        | none => simp [processArticles, htb, hfb, hlb] at h
        | some href =>
          simp only [processArticles, htb, hfb, hlb, List.mem_cons] at h
          cases h with
          | inl hr =>
            refine ⟨b, List.mem_cons_self b rest, ?_⟩
            simp [itemRecord, htb, anchorHref, hfb, hlb, hr]
          | inr hr =>
            obtain ⟨a, hmem, hrec⟩ := ih hr
            exact ⟨a, List.mem_cons_of_mem b hmem, hrec⟩

theorem processArticles_complete (f : BisFetcher) (arts : List Node)
    (h : ∀ a ∈ arts, (titleDiv f a).isSome = true → (anchorHref a).isSome = true) :
    processArticles f arts = (arts.filterMap (itemRecord f), false) := by
  induction arts with
  | nil => rfl
  | cons b rest ih =>
    have hrest : ∀ a ∈ rest, (titleDiv f a).isSome = true → (anchorHref a).isSome = true :=
      fun a ha => h a (List.mem_cons_of_mem b ha)
    cases htb : titleDiv f b with
    | none =>
      have hitem : itemRecord f b = none := by simp [itemRecord, htb]
      simp only [processArticles, htb, List.filterMap_cons, hitem]
      exact ih hrest
    | some td =>
      have hb : (anchorHref b).isSome = true :=
        h b (List.mem_cons_self b rest) (by simp [htb])
      obtain ⟨href, hhref⟩ := Option.isSome_iff_exists.mp hb
      obtain ⟨anc, hfb, hlb⟩ : ∃ anc, firstAnchor b = some anc ∧
          (Node.attrsOf anc).lookup "href" = some href := by
        cases hfb : firstAnchor b with
        | none => simp [anchorHref, hfb] at hhref
        | some anc =>
          simp only [anchorHref, hfb, Option.some_bind] at hhref
          exact ⟨anc, rfl, hhref⟩
      have hitem : itemRecord f b = some ⟨Node.allText td, f.base_url ++ href⟩ := by
        simp [itemRecord, htb, hhref]
      simp only [processArticles, htb, hfb, hlb, List.filterMap_cons, hitem, ih hrest]

theorem filterMap_itemRecord_length (f : BisFetcher) (arts : List Node)
    (h : ∀ a ∈ arts, (titleDiv f a).isSome = true → (anchorHref a).isSome = true) :
    (arts.filterMap (itemRecord f)).length +
      (arts.filter fun a => (titleDiv f a).isNone).length = arts.length := by
  induction arts with
  | nil => rfl
  | cons b rest ih =>
    have hrest : ∀ a ∈ rest, (titleDiv f a).isSome = true → (anchorHref a).isSome = true :=
      fun a ha => h a (List.mem_cons_of_mem b ha)
    cases htb : titleDiv f b with
    | none =>
      have hitem : itemRecord f b = none := by simp [itemRecord, htb]
      simp only [List.filterMap_cons, hitem, List.filter_cons, htb, Option.isNone_none,
        if_pos, List.length_cons]
      have := ih hrest
      omega
    | some td =>
      have hb : (anchorHref b).isSome = true :=
        h b (List.mem_cons_self b rest) (by simp [htb])
      obtain ⟨href, hhref⟩ := Option.isSome_iff_exists.mp hb
      have hitem : itemRecord f b = some ⟨Node.allText td, f.base_url ++ href⟩ := by
        simp [itemRecord, htb, hhref]
      simp only [List.filterMap_cons, hitem, List.filter_cons, htb, Option.isNone_some,
        Bool.false_eq_true, if_false, List.length_cons]
      have := ih hrest
      omega

theorem findAllList_append (name : String) (attrs : List (String × String))
    (xs ys : List Node) :
    findAllList name attrs (xs ++ ys) =
      findAllList name attrs xs ++ findAllList name attrs ys := by
  induction xs with
  | nil => rfl
  | cons c cs ih =>
    simp only [List.cons_append, findAllList, List.append_eq, ih, List.append_assoc]

theorem findAllList_pElem (ps : List String) :
    findAllList "p" [] (ps.map pElem) = ps.map pElem := by
  induction ps with
  | nil => rfl
  | cons s ss ih =>
    simp only [List.map_cons, findAllList, pElem, Node.findAllFrom]
    simp [ih, pElem]
    rw [show matchesQuery "p" [] "p" [] = true from rfl]
    simp

theorem findAllList_tagAnchor (tags : List String) :
    findAllList "a" [("rel", "tag")] (tags.map tagAnchor) = tags.map tagAnchor := by
  induction tags with
  | nil => rfl
  | cons s ss ih =>
    simp only [List.map_cons, findAllList, tagAnchor, Node.findAllFrom]
    simp [ih, tagAnchor]
    rw [show matchesQuery "a" [("rel", "tag")] "a" [("rel", "tag")] = true from rfl]
    simp

theorem allText_pElem (s : String) : Node.allText (pElem s) = s := by
  simp [pElem, Node.allText, nodesText]

theorem allText_tagAnchor (s : String) : Node.allText (tagAnchor s) = s := by
  simp [tagAnchor, Node.allText, nodesText]

/-- Claim C1, counterexample: for an item whose anchor href is already an
absolute URI, `_parse_page_links` does not pass it through unchanged but
still prepends `base_url`, yielding a malformed concatenation. -/
theorem absolute_href_not_passed_through_cex :
    parse_page_links bis
        (PageResponse.success 200
          (listingPage [sampleRow "T" "https://example.com/doc"])) =
      PageResult.records [⟨"T", "https://www.bis.orghttps://example.com/doc"⟩] ∧
    "https://www.bis.orghttps://example.com/doc" ≠ "https://example.com/doc" :=
  ⟨rfl, by decide⟩

/-- Claim C1, amended: for every listing item with a title sub-node whose
first anchor carries href `h` — relative or absolute alike — the emitted
LinkRecord has url `base_url ++ h`; absolute hrefs are not passed through
unchanged. -/
theorem url_resolution_always_concatenates (f : BisFetcher) (a td anc : Node)
    (rest : List Node) (href : String) (h1 : titleDiv f a = some td)
    (h2 : firstAnchor a = some anc)
    (h3 : (Node.attrsOf anc).lookup "href" = some href) :
    (processArticles f (a :: rest)).1 =
      ⟨Node.allText td, f.base_url ++ href⟩ :: (processArticles f rest).1 := by
  simp [processArticles, h1, h2, h3]

/-- Claim C1, witness for the amended theorem at a concrete relative
href. -/
theorem url_resolution_always_concatenates_witness :
    (processArticles bis [sampleRow "T" "/path/to/doc"]).1 =
      ⟨"T", "https://www.bis.org" ++ "/path/to/doc"⟩ :: (processArticles bis []).1 :=
  url_resolution_always_concatenates bis (sampleRow "T" "/path/to/doc")
    (Node.elem "div" [("class", "title")] [Node.text "T"])
    (Node.elem "a" [("href", "/path/to/doc")] [Node.text "T"]) [] "/path/to/doc"
    rfl rfl rfl

/-- Claim C2: `_parse_page_links` returns the `None` end-of-pagination
sentinel exactly when the transport responded with status code 404, and
that sentinel is distinct from the empty record list of a real empty
page. -/
theorem pagination_termination (f : BisFetcher) (resp : PageResponse) :
    (parse_page_links f resp = PageResult.endOfPagination ↔
      ∃ soup, resp = PageResponse.success 404 soup) ∧
    ∀ links : List LinkRecord,
      PageResult.endOfPagination ≠ PageResult.records links := by
  refine ⟨⟨fun h => ?_, fun h => ?_⟩, fun links h => PageResult.noConfusion h⟩
  · cases resp with
    | failure => exact absurd h (by simp [parse_page_links])
    | success status soup =>
      by_cases h404 : status = 404
      · exact ⟨soup, by rw [h404]⟩
      · rw [parse_page_links_success_eq f status soup h404] at h
        exact absurd h.symm (PageResult.noConfusion)
  · obtain ⟨soup, rfl⟩ := h
    rfl

/-- Claim C2, witness: on a concrete 404 response the sentinel is
returned, via the iff of the main theorem. -/
theorem pagination_termination_witness :
    parse_page_links bis (PageResponse.success 404 (listingPage [])) =
      PageResult.endOfPagination :=
  (pagination_termination bis
    (PageResponse.success 404 (listingPage []))).1.mpr ⟨listingPage [], rfl⟩

/-- Claim C4: a raised fetch is absorbed into the empty record list; on
any non-404 response the returned value is the `records` wrapping of
exactly what the item loop accumulated (the missing-container
`AttributeError` path included, since `pageArticles` is then empty); and
when the loop raises at an item, the result is exactly the records
accumulated before that item — never the end-of-pagination sentinel. -/
theorem listing_failure_absorption :
    (∀ f : BisFetcher, parse_page_links f PageResponse.failure =
      PageResult.records []) ∧
    (∀ (f : BisFetcher) (status : Nat) (soup : Node), status ≠ 404 →
      parse_page_links f (PageResponse.success status soup) =
        PageResult.records (processArticles f (pageArticles f soup)).1) ∧
    (∀ (f : BisFetcher) (pre : List Node) (a : Node) (post : List Node),
      (processArticles f pre).2 = false → (titleDiv f a).isSome = true →
      anchorHref a = none →
      processArticles f (pre ++ a :: post) = ((processArticles f pre).1, true)) :=
  ⟨fun _ => rfl, parse_page_links_success_eq, processArticles_abort⟩

/-- Claim C4, witness: the absorption equations hold at a concrete page
and a concrete raising item. -/
theorem listing_failure_absorption_witness :
    parse_page_links bis (PageResponse.success 200 (listingPage [sampleRow "T1" "/a"])) =
      PageResult.records
        (processArticles bis (pageArticles bis (listingPage [sampleRow "T1" "/a"]))).1 ∧
    processArticles bis ([sampleRow "T1" "/a"] ++ rowNoAnchor "X" :: [sampleRow "T2" "/b"]) =
      ((processArticles bis [sampleRow "T1" "/a"]).1, true) :=
  ⟨listing_failure_absorption.2.1 bis 200 (listingPage [sampleRow "T1" "/a"]) (by decide),
   listing_failure_absorption.2.2 bis [sampleRow "T1" "/a"] (rowNoAnchor "X")
     [sampleRow "T2" "/b"] rfl rfl rfl⟩

/-- Claim C5: on a non-404 listing page all of whose titled items also
carry an anchored href, `_parse_page_links` returns one record per
titled item in page order — the items' `filterMap` image — and the
record count is the item count minus the count of items lacking a title
sub-node. -/
theorem title_skip_count_order (f : BisFetcher) (status : Nat) (soup : Node)
    (h404 : status ≠ 404)
    (h : ∀ a ∈ pageArticles f soup,
      (titleDiv f a).isSome = true → (anchorHref a).isSome = true) :
    parse_page_links f (PageResponse.success status soup) =
      PageResult.records ((pageArticles f soup).filterMap (itemRecord f)) ∧
    ((pageArticles f soup).filterMap (itemRecord f)).length =
      (pageArticles f soup).length -
        ((pageArticles f soup).filter fun a => (titleDiv f a).isNone).length := by
  constructor
  · rw [parse_page_links_success_eq f status soup h404,
      processArticles_complete f (pageArticles f soup) h]
  · have := filterMap_itemRecord_length f (pageArticles f soup) h
    omega

/-- Claim C5, witness: a concrete page with two titled items and one
item lacking a title yields two records, in order. -/
theorem title_skip_count_order_witness :
    parse_page_links bis
        (PageResponse.success 200
          (listingPage [sampleRow "T1" "/a", rowNoTitle, sampleRow "T2" "/b"])) =
      PageResult.records
        ((pageArticles bis (listingPage [sampleRow "T1" "/a", rowNoTitle,
          sampleRow "T2" "/b"])).filterMap (itemRecord bis)) ∧
    ((pageArticles bis (listingPage [sampleRow "T1" "/a", rowNoTitle,
        sampleRow "T2" "/b"])).filterMap (itemRecord bis)).length =
      (pageArticles bis (listingPage [sampleRow "T1" "/a", rowNoTitle,
          sampleRow "T2" "/b"])).length -
        ((pageArticles bis (listingPage [sampleRow "T1" "/a", rowNoTitle,
          sampleRow "T2" "/b"])).filter fun a => (titleDiv bis a).isNone).length :=
  title_skip_count_order bis 200
    (listingPage [sampleRow "T1" "/a", rowNoTitle, sampleRow "T2" "/b"])
    (by decide) (by decide)

/-- Claim C6, counterexample: an item with a title but no anchor is not
skipped per-item; the raised `TypeError` aborts the whole page loop, so
a later well-formed item (which alone would contribute a record) yields
nothing. -/
theorem missing_anchor_aborts_page_cex :
    parse_page_links bis
        (PageResponse.success 200 (listingPage [rowNoAnchor "X", sampleRow "T2" "/b"])) =
      PageResult.records [] ∧
    itemRecord bis (sampleRow "T2" "/b") = some ⟨"T2", "https://www.bis.org/b"⟩ :=
  ⟨rfl, rfl⟩

/-- Claim C6, amended: an item with a title sub-node but no anchored
href raises inside the loop; the page-level handler catches it, so
`_parse_page_links` returns only the records accumulated before that
item and every later item on the page is lost. -/
theorem missing_anchor_aborts_page (f : BisFetcher) (status : Nat) (soup : Node)
    (pre : List Node) (a : Node) (post : List Node) (h404 : status ≠ 404)
    (harts : pageArticles f soup = pre ++ a :: post)
    (hpre : (processArticles f pre).2 = false)
    (ht : (titleDiv f a).isSome = true) (ha : anchorHref a = none) :
    parse_page_links f (PageResponse.success status soup) =
      PageResult.records (processArticles f pre).1 := by
  rw [parse_page_links_success_eq f status soup h404, harts,
    processArticles_abort f pre a post hpre ht ha]

/-- Claim C6, witness for the amended theorem: one good row, then a
titled row without an anchor, then another good row; only the first
row's record survives. -/
theorem missing_anchor_aborts_page_witness :
    parse_page_links bis
        (PageResponse.success 200
          (listingPage [sampleRow "T1" "/a", rowNoAnchor "X", sampleRow "T2" "/b"])) =
      PageResult.records (processArticles bis [sampleRow "T1" "/a"]).1 :=
  missing_anchor_aborts_page bis 200
    (listingPage [sampleRow "T1" "/a", rowNoAnchor "X", sampleRow "T2" "/b"])
    [sampleRow "T1" "/a"] (rowNoAnchor "X") [sampleRow "T2" "/b"]
    (by decide) rfl rfl rfl rfl

/-- Claim C9, counterexample: an item whose title div exists but has
empty text is appended with an empty title, violating the non-empty
title invariant. -/
theorem empty_title_emitted_cex :
    parse_page_links bis (PageResponse.success 200 (listingPage [rowEmptyTitle])) =
      PageResult.records [⟨"", "https://www.bis.org/e"⟩] ∧
    ("" : String).length = 0 :=
  ⟨rfl, rfl⟩

/-- Claim C9, amended: every emitted LinkRecord's title is the text of
the item's title sub-node, which may be empty; items are skipped only
for a missing title sub-node, never for an empty title. -/
theorem title_from_title_div (f : BisFetcher) (arts : List Node) (r : LinkRecord)
    (h : r ∈ (processArticles f arts).1) :
    ∃ a ∈ arts, ∃ td, titleDiv f a = some td ∧ r.title = Node.allText td := by
  obtain ⟨a, hmem, hrec⟩ := mem_processArticles f arts r h
  refine ⟨a, hmem, ?_⟩
  unfold itemRecord at hrec
  cases htd : titleDiv f a with
  | none => rw [htd] at hrec; exact absurd hrec (by simp)
  | some td =>
    rw [htd] at hrec
    cases hh : anchorHref a with
    | none => rw [hh] at hrec; exact absurd hrec (by simp)
    | some href =>
      rw [hh] at hrec
      simp only [Option.some_inj] at hrec
      exact ⟨td, rfl, by rw [← hrec]⟩

/-- Claim C9, witness for the amended theorem at a concrete record. -/
theorem title_from_title_div_witness :
    ∃ a ∈ [sampleRow "T1" "/a"], ∃ td, titleDiv bis a = some td ∧
      (⟨"T1", "https://www.bis.org/a"⟩ : LinkRecord).title = Node.allText td :=
  title_from_title_div bis [sampleRow "T1" "/a"] ⟨"T1", "https://www.bis.org/a"⟩
    (show (⟨"T1", "https://www.bis.org/a"⟩ : LinkRecord) ∈
        [(⟨"T1", "https://www.bis.org/a"⟩ : LinkRecord)] from
      List.mem_singleton.mpr rfl)

theorem map_allText_pElem (ps : List String) :
    (ps.map pElem).map Node.allText = ps := by
  induction ps with
  | nil => rfl
  | cons s ss ih => simp [allText_pElem, ih]

theorem map_allText_tagAnchor (tags : List String) :
    (tags.map tagAnchor).map Node.allText = tags := by
  induction tags with
  | nil => rfl
  | cons s ss ih => simp [allText_tagAnchor, ih]

/-- Claim C3: `_parse_article_text` yields a record exactly when the
content container is found, the metadata container is found, and the
publication-time element exists with a `datetime` attribute that
`datetime.fromisoformat` parses; whenever any of these is absent or
unparsable it yields `None` and never a partial record. -/
theorem no_partial_document_record (fromiso : String → Option String) (soup : Node) :
    (parse_article_text fromiso (DocResponse.success soup)).isSome = true ↔
      ∃ c m, findContentDiv soup = some c ∧ findMetaDiv soup = some m ∧
        ∃ t s iso, entryTime m = some t ∧
          (Node.attrsOf t).lookup "datetime" = some s ∧ fromiso s = some iso := by
  cases hc : findContentDiv soup with
  | none => simp [parse_article_text, hc]
  | some c =>
    cases hm : findMetaDiv soup with
    | none => simp [parse_article_text, hc, hm]
    | some m =>
      simp only [parse_article_text, hc, hm, Option.some.injEq]
      rw [show (∃ x y, c = x ∧ m = y ∧ ∃ t s iso, entryTime y = some t ∧
          (Node.attrsOf t).lookup "datetime" = some s ∧ fromiso s = some iso) ↔
          (∃ t s iso, entryTime m = some t ∧
            (Node.attrsOf t).lookup "datetime" = some s ∧ fromiso s = some iso) from by
        constructor
        · rintro ⟨x, y, rfl, rfl, hrest⟩; exact hrest
        · intro hrest; exact ⟨c, m, rfl, rfl, hrest⟩]
      simp only [extract_text]
      cases ht : entryTime m with
      | none => simp [ht]
      | some t =>
        cases hs : (Node.attrsOf t).lookup "datetime" with
        | none => simp [ht, hs]
        | some s =>
          cases hi : fromiso s with
          | none => simp [ht, hs, hi]
          | some iso => simp [ht, hs, hi]

/-- Claim C3, witness: a concrete document with both containers and a
parsable timestamp yields a record, via the iff of the main theorem. -/
theorem no_partial_document_record_witness :
    (parse_article_text sampleIso
        (DocResponse.success
          (articlePage (sampleContent ["A"])
            (sampleMeta ["Policy"] "2023-01-02T03:04:05")))).isSome = true :=
  (no_partial_document_record sampleIso
      (articlePage (sampleContent ["A"])
        (sampleMeta ["Policy"] "2023-01-02T03:04:05"))).mpr
    ⟨sampleContent ["A"], sampleMeta ["Policy"] "2023-01-02T03:04:05", rfl, rfl,
      timeElem "2023-01-02T03:04:05", "2023-01-02T03:04:05", "2023-01-02T03:04:05",
      rfl, rfl, rfl⟩

/-- Claim C7: the text field of every record produced by `_extract_text`
is the newline-join of the texts of the content container's `p`
descendants, in document order; in particular, when the container's
children are exactly paragraphs with texts `ps`, the text is
`intercalate "\n" ps`, empty paragraphs contributing empty lines. -/
theorem paragraph_joining (fromiso : String → Option String) (c m : Node)
    (r : DocumentRecord) (h : extract_text fromiso c m = some r) :
    r.text = String.intercalate "\n" ((Node.findAllFrom "p" [] c).map Node.allText) ∧
    ∀ (attrs : List (String × String)) (ps : List String),
      c = Node.elem "div" attrs (ps.map pElem) →
      r.text = String.intercalate "\n" ps := by
  have h1 : r.text =
      String.intercalate "\n" ((Node.findAllFrom "p" [] c).map Node.allText) := by
    simp only [extract_text] at h
    cases ht : entryTime m with
    | none => simp [ht] at h
    | some t =>
      cases hs : (Node.attrsOf t).lookup "datetime" with
      | none => simp [ht, hs] at h
      | some s =>
        cases hi : fromiso s with
        | none => simp [ht, hs, hi] at h
        | some iso =>
          simp only [ht, hs, hi, Option.some.injEq] at h
          rw [← h]
  refine ⟨h1, fun attrs ps hc => ?_⟩
  subst hc
  rw [h1]
  rw [show Node.findAllFrom "p" [] (Node.elem "div" attrs (ps.map pElem)) =
      findAllList "p" [] (ps.map pElem) from rfl,
    findAllList_pElem, map_allText_pElem]

/-- Claim C7, witness: paragraphs `A`, empty, `B` join to the text
`A`-newline-newline-`B`, the empty paragraph kept as an empty line. -/
theorem paragraph_joining_witness :
    (⟨["Policy"], "2023-01-02T03:04:05", "A\n\nB"⟩ : DocumentRecord).text =
      String.intercalate "\n" ["A", "", "B"] :=
  (paragraph_joining sampleIso (sampleContent ["A", "", "B"])
      (sampleMeta ["Policy"] "2023-01-02T03:04:05")
      ⟨["Policy"], "2023-01-02T03:04:05", "A\n\nB"⟩ rfl).2
    [("class", "entry-content")] ["A", "", "B"] rfl

/-- Claim C8: the categories field of every record produced by
`_extract_text` is the list of texts of the metadata container's
`rel="tag"` anchors in document order; when the container's children
start with anchors holding texts `tags` and the remaining children
contain no tag anchor, the categories are exactly `tags`, duplicates
and order preserved. -/
theorem category_extraction (fromiso : String → Option String) (c m : Node)
    (r : DocumentRecord) (h : extract_text fromiso c m = some r) :
    r.categories = (Node.findAllFrom "a" [("rel", "tag")] m).map Node.allText ∧
    ∀ (attrs : List (String × String)) (tags : List String) (rest : List Node),
      m = Node.elem "div" attrs (tags.map tagAnchor ++ rest) →
      findAllList "a" [("rel", "tag")] rest = [] →
      r.categories = tags := by
  have h1 : r.categories =
      (Node.findAllFrom "a" [("rel", "tag")] m).map Node.allText := by
    simp only [extract_text] at h
    cases ht : entryTime m with
    | none => simp [ht] at h
    | some t =>
      cases hs : (Node.attrsOf t).lookup "datetime" with
      | none => simp [ht, hs] at h
      | some s =>
        cases hi : fromiso s with
        | none => simp [ht, hs, hi] at h
        | some iso =>
          simp only [ht, hs, hi, Option.some.injEq] at h
          rw [← h]
  refine ⟨h1, fun attrs tags rest hm hrest => ?_⟩
  subst hm
  rw [h1]
  rw [show Node.findAllFrom "a" [("rel", "tag")]
        (Node.elem "div" attrs (tags.map tagAnchor ++ rest)) =
      findAllList "a" [("rel", "tag")] (tags.map tagAnchor ++ rest) from rfl,
    findAllList_append, findAllList_tagAnchor, hrest, List.append_nil,
    map_allText_tagAnchor]

/-- Claim C8, witness: tag anchors `Policy`, `Speech`, `Policy` yield
exactly those categories, order and duplicates preserved. -/
theorem category_extraction_witness :
    (⟨["Policy", "Speech", "Policy"], "2023-01-02T03:04:05", ""⟩ :
        DocumentRecord).categories = ["Policy", "Speech", "Policy"] :=
  (category_extraction sampleIso (sampleContent [])
      (sampleMeta ["Policy", "Speech", "Policy"] "2023-01-02T03:04:05")
      ⟨["Policy", "Speech", "Policy"], "2023-01-02T03:04:05", ""⟩ rfl).2
    [("class", "entry-meta")] ["Policy", "Speech", "Policy"]
    [timeElem "2023-01-02T03:04:05"] rfl rfl

/-- Claim C10: a document whose content container has no paragraph
nodes but whose metadata container and parsable publication time are
present yields a record — not `None` — whose text is the empty
string. -/
theorem empty_body_yields_record (fromiso : String → Option String)
    (soup c m t : Node) (s iso : String)
    (hc : findContentDiv soup = some c)
    (hp : Node.findAllFrom "p" [] c = [])
    (hm : findMetaDiv soup = some m)
    (ht : entryTime m = some t)
    (hs : (Node.attrsOf t).lookup "datetime" = some s)
    (hi : fromiso s = some iso) :
    parse_article_text fromiso (DocResponse.success soup) =
      some ⟨(Node.findAllFrom "a" [("rel", "tag")] m).map Node.allText, iso, ""⟩ := by
  simp only [parse_article_text, hc, hm, extract_text, hp, ht, hs, hi, List.map_nil]
  rfl

/-- Claim C10, witness: a concrete document with an empty content
container and valid metadata yields a record with empty text. -/
theorem empty_body_yields_record_witness :
    parse_article_text sampleIso
        (DocResponse.success
          (articlePage (sampleContent [])
            (sampleMeta ["Policy"] "2023-01-02T03:04:05"))) =
      some ⟨["Policy"], "2023-01-02T03:04:05", ""⟩ :=
  empty_body_yields_record sampleIso
    (articlePage (sampleContent []) (sampleMeta ["Policy"] "2023-01-02T03:04:05"))
    (sampleContent []) (sampleMeta ["Policy"] "2023-01-02T03:04:05")
    (timeElem "2023-01-02T03:04:05") "2023-01-02T03:04:05" "2023-01-02T03:04:05"
    rfl rfl rfl rfl rfl rfl
